import Mathlib

/-!
Verification of core/src/background_process.rs (background process registry).

The Rust module is embedded shallowly: decoded text is modelled as a list of
characters (a Rust String) whose byte length is the sum of the UTF-8 sizes of
its characters, usize arithmetic is natural-number arithmetic with explicit
saturation at USIZE_MAX, the VecDeque of log entries is a list whose head is
the front (oldest) element, and the asynchronous tasks are modelled as pure
step functions over the data they mutate, driven by explicit sequences of
externally observed events (poll outcomes, spawn outcomes, kill outcomes).
-/

/-- Byte length of a decoded text, mirroring Rust String::len, which counts
UTF-8 bytes. Text is a list of characters; the byte length is the sum of the
UTF-8 encoded sizes of its characters. -/
def utf8Len (text : List Char) : Nat := (text.map Char.utf8Size).sum

/-- LOG_CAP_BYTES from the source: 512 KiB cap per process. -/
def LOG_CAP_BYTES : Nat := 512 * 1024

/-- Largest value of the Rust usize type on a 64-bit target. -/
def USIZE_MAX : Nat := 2 ^ 64 - 1

/-- usize::saturating_add on a 64-bit target. -/
def satAdd (a b : Nat) : Nat := min (a + b) USIZE_MAX

/-- LogStream from the source: which output stream a log entry came from. -/
inductive LogStream where
  | Stdout
  | Stderr
deriving DecidableEq

/-- LogStream::as_str from the source. -/
def LogStream.as_str : LogStream → List Char
  | .Stdout => "stdout".data
  | .Stderr => "stderr".data

/-- LogEntry from the source: one decoded chunk tagged with its stream. -/
structure LogEntry where
  stream : LogStream
  text : List Char
deriving DecidableEq

/-- ProcessLog from the source: the retained entries (head = front = oldest)
plus the running byte total. -/
structure ProcessLog where
  entries : List LogEntry
  total_bytes : Nat
deriving DecidableEq

/-- ProcessLog::default: empty buffer, zero total. -/
def ProcessLog.empty : ProcessLog := { entries := [], total_bytes := 0 }

/-- The while loop inside ProcessLog::append: while total_bytes > LOG_CAP_BYTES,
pop the front entry and subtract its byte length (saturating subtraction, which
on Nat is ordinary subtraction); stop when the queue is empty. -/
def evictLoop : List LogEntry → Nat → List LogEntry × Nat
  | [], total => ([], total)
  | front :: rest, total =>
    if LOG_CAP_BYTES < total then evictLoop rest (total - utf8Len front.text)
    else (front :: rest, total)

/-- ProcessLog::append from the source. The raw chunk is given already decoded
(String::from_utf8_lossy maps a chunk to its decoded text, with empty chunks
decoding to empty text and nonempty chunks to nonempty text, so the
chunk.is_empty() guard is the text = [] guard here): on nonempty text the byte
total is bumped with saturating_add, the entry is pushed at the back, and the
eviction loop runs. -/
def ProcessLog.append (self : ProcessLog) (stream : LogStream) (text : List Char) : ProcessLog :=
  if text = [] then self
  else
    { entries := (evictLoop (self.entries ++ [{ stream := stream, text := text }])
        (satAdd self.total_bytes (utf8Len text))).1,
      total_bytes := (evictLoop (self.entries ++ [{ stream := stream, text := text }])
        (satAdd self.total_bytes (utf8Len text))).2 }

/-- ProcessLog::snapshot from the source: an ordered copy of the retained
entries (iter().cloned().collect()). -/
def ProcessLog.snapshot (self : ProcessLog) : List LogEntry := self.entries

/-- Total byte length of the retained entries of a list. -/
def sumBytes (es : List LogEntry) : Nat := (es.map (fun e => utf8Len e.text)).sum

/-- Folding a sequence of appends over a starting buffer. -/
def runFrom (l : ProcessLog) (ops : List (LogStream × List Char)) : ProcessLog :=
  ops.foldl (fun log op => log.append op.1 op.2) l

/-- A sequence of appends applied to the empty buffer. -/
def runAppends (ops : List (LogStream × List Char)) : ProcessLog :=
  runFrom ProcessLog.empty ops

/-- Total decoded byte length of a sequence of append operations. -/
def opsSum (ops : List (LogStream × List Char)) : Nat := (ops.map (fun op => utf8Len op.2)).sum

/-- A single text strictly larger than the cap: LOG_CAP_BYTES + 1 copies of a
one-byte character. -/
def oversizedText : List Char := List.replicate (LOG_CAP_BYTES + 1) 'a'

/-- SystemTime, modelled by its (possibly negative) offset from the Unix epoch
in nanoseconds; Rust's SystemTime can denote instants before the epoch, and
duration_since(UNIX_EPOCH) succeeds exactly when the offset is nonnegative. -/
structure SystemTime where
  nanosSinceEpoch : Int
deriving DecidableEq

/-- BackgroundProcessState from the source. -/
inductive BackgroundProcessState where
  | Running
  | Exited (exit_code : Option Int) (signal : Option Int) (finished_at : SystemTime)
  | Failed (message : List Char) (finished_at : SystemTime)
deriving DecidableEq

/-- Whether a lifecycle state is terminal (Exited or Failed). -/
def BackgroundProcessState.isTerminal : BackgroundProcessState → Bool
  | .Running => false
  | .Exited _ _ _ => true
  | .Failed _ _ => true

/-- One outcome of Child::try_wait as observed by the monitor loop, together
with the clock reading taken right after it: the child exited (carrying
status.code() and, on unix, status.signal()), the child is still running, or
the wait call itself errored (carrying the error's display text). -/
inductive PollOutcome where
  | exited (exit_code : Option Int) (signal : Option Int) (now : SystemTime)
  | stillRunning
  | waitError (message : List Char) (now : SystemTime)
deriving DecidableEq

/-- One iteration of the loop in spawn_monitor_task, as a transition on the
value held by the shared state cell. From Running: Ok(Some(status)) writes
Exited with the exit code, signal and timestamp and breaks; Ok(None) leaves the
cell untouched and sleeps; Err(err) writes Failed with the error message and
timestamp and breaks. Once the loop has broken the task is finished and never
writes the cell again, so from a terminal state every further observation
returns the cell unchanged. -/
def monitorStep (state : BackgroundProcessState) (poll : PollOutcome) : BackgroundProcessState :=
  match state with
  | .Running =>
    match poll with
    | .exited exit_code signal now => .Exited exit_code signal now
    | .stillRunning => .Running
    | .waitError message now => .Failed message now
  | s => s

/-- The state cell after the monitor has consumed a sequence of poll outcomes,
starting from the initial Running value installed by start. -/
def monitorRun (polls : List PollOutcome) : BackgroundProcessState :=
  polls.foldl monitorStep .Running

/-- system_time_to_unix_millis from the source:
time.duration_since(UNIX_EPOCH).ok().map(|dur| dur.as_millis()). The conversion
succeeds exactly for instants at or after the epoch, and as_millis is the whole
number of milliseconds (nanoseconds divided by 1000000, rounding down). -/
def system_time_to_unix_millis (time : SystemTime) : Option Nat :=
  if 0 ≤ time.nanosSinceEpoch then some (time.nanosSinceEpoch.toNat / 1000000) else none

/-- The kind of a std::io::Error, restricted to the distinction the module
makes: ErrorKind::InvalidInput (what tokio's start_kill returns when there is
nothing to kill) versus any other kind. -/
inductive IOErrorKind where
  | InvalidInput
  | NotFound
  | PermissionDenied
  | OtherError
deriving DecidableEq

/-- A std::io::Error: its kind plus its display text (to_string()). -/
structure IOError where
  kind : IOErrorKind
  message : List Char
deriving DecidableEq

/-- Modelled from the spec: the sandbox kind enum returned by the execution
collaborator (crate::exec::SandboxType lives outside src/). Its variants are
irrelevant here; it is only stored and echoed back. -/
inductive SandboxType where
  | noSandbox
  | macosSeatbelt
  | linuxSeccomp
deriving DecidableEq

/-- Modelled from the spec: ExecParams (crate::exec, outside src/) restricted
to the fields this module reads: the command vector and the working
directory. -/
structure ExecParams where
  command : List (List Char)
  cwd : List Char
deriving DecidableEq

/-- Modelled from the spec: the caller-facing error type
(crate::function_tool::FunctionCallError, outside src/); this module only
builds its RespondToModel variant, which carries a message string. -/
inductive FunctionCallError where
  | RespondToModel (message : List Char)
deriving DecidableEq

/-- Modelled from the spec: the executor's error type
(crate::executor::errors::ExecError, outside src/): either a function-level
failure carrying a FunctionCallError, or any other failure, carried here as its
debug rendering. -/
inductive ExecError where
  | Function (inner : FunctionCallError)
  | Codex (debugText : List Char)
deriving DecidableEq

/-- error_to_function_call from the source: a Function failure passes its inner
error through verbatim; anything else is wrapped with a generic diagnostic. -/
def error_to_function_call (err : ExecError) : FunctionCallError :=
  match err with
  | .Function inner => inner
  | .Codex other => .RespondToModel ("execution error: ".data ++ other)

deriving instance DecidableEq for Except

/-- Modelled from the spec: the child handle returned by spawn_background
(tokio::process::Child, outside src/), reduced to what start consumes: the
take-able stdout and stderr pipes, present or not. Pipes are abstract tokens. -/
structure SpawnedChild where
  stdout : Option Nat
  stderr : Option Nat
deriving DecidableEq

/-- ManagedBackgroundProcess from the source, restricted to its data fields;
the child handle, the locks and the three task join handles are modelled
separately (the kill outcome and the pump/monitor events are explicit inputs
where they matter). -/
structure ManagedBackgroundProcess where
  id : List Char
  command_for_display : List (List Char)
  cwd : List Char
  started_at : SystemTime
  sandbox_type : SandboxType
  state : BackgroundProcessState
  log : ProcessLog
deriving DecidableEq

/-- ManagedBackgroundProcess::kill from the source, as a function of the
outcome of Child::start_kill on the locked child handle: Ok is success, an
error of kind InvalidInput is converted to success, and any other error is
returned unchanged. -/
def ManagedBackgroundProcess.kill (_self : ManagedBackgroundProcess)
    (start_kill : Except IOError Unit) : Except IOError Unit :=
  match start_kill with
  | .ok _ => .ok ()
  | .error err => if err.kind = IOErrorKind.InvalidInput then .ok () else .error err

/-- BackgroundProcessLogEntry from the source: a log entry with its stream tag
rendered as the literal string stdout or stderr. -/
structure BackgroundProcessLogEntry where
  stream : List Char
  text : List Char
deriving DecidableEq

/-- StartProcessResponse from the source. -/
structure StartProcessResponse where
  process_id : List Char
deriving DecidableEq

/-- BackgroundProcessManager from the source: the atomic id counter and the
map from process id to managed process, modelled as an association list. -/
structure BackgroundProcessManager where
  next_id : Nat
  processes : List (List Char × ManagedBackgroundProcess)
deriving DecidableEq

/-- BackgroundProcessManager::new, via Default: counter 0, empty map. -/
def BackgroundProcessManager.new : BackgroundProcessManager :=
  { next_id := 0, processes := [] }

/-- HashMap::get on the association list model. -/
def mapLookup (m : List (List Char × ManagedBackgroundProcess)) (k : List Char) :
    Option ManagedBackgroundProcess :=
  match m with
  | [] => none
  | (k', v) :: rest => if k' = k then some v else mapLookup rest k

/-- HashMap::insert on the association list model: replaces an existing
binding, otherwise appends a fresh one. -/
def mapInsert (m : List (List Char × ManagedBackgroundProcess)) (k : List Char)
    (v : ManagedBackgroundProcess) : List (List Char × ManagedBackgroundProcess) :=
  match m with
  | [] => [(k, v)]
  | (k', v') :: rest => if k' = k then (k, v) :: rest else (k', v') :: mapInsert rest k v

/-- The character for a single decimal digit. -/
def digitChar (d : Nat) : Char := Char.ofNat (48 + d)

/-- Decimal rendering of a natural number, most significant digit first, as the
formatting machinery produces for the id_num interpolation. -/
def natToDecimal (n : Nat) : List Char :=
  if n = 0 then ['0'] else ((Nat.digits 10 n).map digitChar).reverse

/-- The process identifier string built by start: the literal prefix bg-
followed by the decimal counter value. -/
def processIdString (id_num : Nat) : List Char := "bg-".data ++ natToDecimal id_num

/-- Number of values of the Rust u64 type; AtomicU64::fetch_add wraps at this
modulus. -/
def UINT64_CARD : Nat := 2 ^ 64

/-- The environment of one start call: the outcome of the external
spawn_background call (which may also rewrite the request parameters, so the
parameters read back afterwards are part of the environment), and the clock
reading used for started_at. -/
structure StartEnv where
  spawn : Except ExecError (SpawnedChild × SandboxType)
  paramsAfter : ExecParams
  now : SystemTime
deriving DecidableEq

/-- What one start call did: the manager afterwards, the returned result, how
many background tasks the call spawned, and the counter value and id string it
allocated (the fetch_add happens before anything can fail, so an id is
allocated even when the call errors). -/
structure StartEffect where
  manager : BackgroundProcessManager
  result : Except FunctionCallError StartProcessResponse
  tasksSpawned : Nat
  allocatedIdNum : Nat
  allocatedId : List Char
deriving DecidableEq

/-- BackgroundProcessManager::start from the source: allocate the next id with
a wrapping fetch_add, delegate to spawn_background, take the stdout then the
stderr pipe (each missing pipe aborts with a capture error before any task is
spawned), then spawn the two pump tasks and the monitor task, build the managed
record with state Running and an empty log, and insert it into the map. -/
def BackgroundProcessManager.start (self : BackgroundProcessManager) (env : StartEnv) :
    StartEffect :=
  let id_num := (self.next_id + 1) % UINT64_CARD
  let process_id := processIdString id_num
  let bumped : BackgroundProcessManager := { self with next_id := id_num }
  match env.spawn with
  | .error e =>
    { manager := bumped, result := .error (error_to_function_call e),
      tasksSpawned := 0, allocatedIdNum := id_num, allocatedId := process_id }
  | .ok (child, sandbox_type) =>
    match child.stdout with
    | none =>
      { manager := bumped, result := .error (.RespondToModel "failed to capture stdout".data),
        tasksSpawned := 0, allocatedIdNum := id_num, allocatedId := process_id }
    | some _ =>
      match child.stderr with
      | none =>
        { manager := bumped, result := .error (.RespondToModel "failed to capture stderr".data),
          tasksSpawned := 0, allocatedIdNum := id_num, allocatedId := process_id }
      | some _ =>
        let managed : ManagedBackgroundProcess :=
          { id := process_id, command_for_display := env.paramsAfter.command,
            cwd := env.paramsAfter.cwd, started_at := env.now,
            sandbox_type := sandbox_type, state := .Running, log := ProcessLog.empty }
        { manager := { bumped with processes := mapInsert bumped.processes process_id managed },
          result := .ok { process_id := process_id },
          tasksSpawned := 3, allocatedIdNum := id_num, allocatedId := process_id }

/-- A sequence of start calls threaded through one manager. -/
def runStarts (self : BackgroundProcessManager) : List StartEnv → List StartEffect
  | [] => []
  | env :: rest =>
    let eff := self.start env
    eff :: runStarts eff.manager rest

/-- BackgroundProcessManager::logs from the source: look the id up under the
map lock; if absent, fail with the unknown-process message; otherwise return
the process's log snapshot with stream tags rendered as strings. The call never
returns a new map: it only reads the registry. -/
def BackgroundProcessManager.logs (self : BackgroundProcessManager) (process_id : List Char) :
    Except FunctionCallError (List BackgroundProcessLogEntry) :=
  match mapLookup self.processes process_id with
  | none => .error (.RespondToModel ("unknown background process: ".data ++ process_id))
  | some process =>
    .ok (process.log.snapshot.map
      (fun entry => { stream := entry.stream.as_str, text := entry.text }))

/-- BackgroundProcessManager::kill from the source: look the id up under the
map lock; if absent, fail with the unknown-process message; otherwise delegate
to the handle's kill (whose start_kill outcome is an explicit input) and wrap
any surviving error's display text. The call never returns a new map: it only
reads the registry. -/
def BackgroundProcessManager.kill (self : BackgroundProcessManager) (process_id : List Char)
    (start_kill : Except IOError Unit) : Except FunctionCallError Unit :=
  match mapLookup self.processes process_id with
  | none => .error (.RespondToModel ("unknown background process: ".data ++ process_id))
  | some process =>
    match process.kill start_kill with
    | .ok _ => .ok ()
    | .error err => .error (.RespondToModel err.message)

/-- A concrete pair of start environments: one fully successful spawn and one
failing spawn. -/
def sampleEnvs : List StartEnv :=
  [{ spawn := .ok ({ stdout := some 0, stderr := some 1 }, SandboxType.noSandbox),
     paramsAfter := { command := [], cwd := [] }, now := ⟨0⟩ },
   { spawn := .error (.Function (.RespondToModel "spawn failed".data)),
     paramsAfter := { command := [], cwd := [] }, now := ⟨0⟩ }]

theorem sumBytes_nil : sumBytes [] = 0 := rfl

theorem sumBytes_cons (e : LogEntry) (es : List LogEntry) :
    sumBytes (e :: es) = utf8Len e.text + sumBytes es := by
  simp [sumBytes]

theorem sumBytes_append (a b : List LogEntry) :
    sumBytes (a ++ b) = sumBytes a + sumBytes b := by
  simp [sumBytes]

theorem cap_le_usize_sub_cap : LOG_CAP_BYTES ≤ USIZE_MAX - LOG_CAP_BYTES := by
  decide

theorem evictLoop_sound (es : List LogEntry) (total : Nat) (h : total = sumBytes es) :
    (evictLoop es total).2 = sumBytes (evictLoop es total).1 ∧
    (evictLoop es total).1 <:+ es ∧
    (evictLoop es total).2 ≤ LOG_CAP_BYTES := by
  induction es generalizing total with
  | nil =>
    subst h
    simp [evictLoop, sumBytes]
  | cons f rest ih =>
    rw [evictLoop]
    by_cases hc : LOG_CAP_BYTES < total
    · rw [if_pos hc]
      have h' : total - utf8Len f.text = sumBytes rest := by
        rw [h, sumBytes_cons]
        omega
      obtain ⟨h1, h2, h3⟩ := ih (total - utf8Len f.text) h'
      exact ⟨h1, h2.trans (List.suffix_cons f rest), h3⟩
    · rw [if_neg hc]
      exact ⟨h, List.suffix_refl _, Nat.le_of_not_lt hc⟩

theorem evictLoop_no_evict (es : List LogEntry) (total : Nat)
    (h : total ≤ LOG_CAP_BYTES) : evictLoop es total = (es, total) := by
  cases es with
  | nil => rfl
  | cons f rest => rw [evictLoop, if_neg (Nat.not_lt.mpr h)]

theorem evictLoop_drop (es : List LogEntry) (e : LogEntry) (total : Nat)
    (h : total = sumBytes (es ++ [e])) (hle : utf8Len e.text ≤ LOG_CAP_BYTES) :
    ∃ k, (evictLoop (es ++ [e]) total).1 = es.drop k ++ [e] := by
  induction es generalizing total with
  | nil =>
    have htot : total ≤ LOG_CAP_BYTES := by
      rw [h, sumBytes_append, sumBytes_cons, sumBytes_nil]
      omega
    rw [List.nil_append, evictLoop_no_evict _ _ htot]
    exact ⟨0, rfl⟩
  | cons f rest ih =>
    rw [List.cons_append, evictLoop]
    by_cases hc : LOG_CAP_BYTES < total
    · rw [if_pos hc]
      have h' : total - utf8Len f.text = sumBytes (rest ++ [e]) := by
        rw [h, List.cons_append, sumBytes_cons]
        omega
      obtain ⟨k, hk⟩ := ih (total - utf8Len f.text) h'
      exact ⟨k + 1, by simpa using hk⟩
    · rw [if_neg hc]
      exact ⟨0, by simp⟩

theorem evictLoop_clears (es : List LogEntry) (e : LogEntry) (total : Nat)
    (h : total = sumBytes (es ++ [e])) (hbig : LOG_CAP_BYTES < utf8Len e.text) :
    evictLoop (es ++ [e]) total = ([], 0) := by
  induction es generalizing total with
  | nil =>
    have htot : total = utf8Len e.text := by
      rw [h, sumBytes_append, sumBytes_cons, sumBytes_nil]
      omega
    rw [List.nil_append, evictLoop, if_pos (htot ▸ hbig)]
    rw [evictLoop, htot, Nat.sub_self]
  | cons f rest ih =>
    have hgt : LOG_CAP_BYTES < total := by
      rw [h, List.cons_append, sumBytes_cons, sumBytes_append, sumBytes_cons, sumBytes_nil]
      omega
    rw [List.cons_append, evictLoop, if_pos hgt]
    apply ih
    rw [h, List.cons_append, sumBytes_cons]
    omega

theorem append_inv (l : ProcessLog) (s : LogStream) (t : List Char)
    (hacc : l.total_bytes = sumBytes l.entries)
    (hcap : l.total_bytes ≤ LOG_CAP_BYTES)
    (ht : utf8Len t ≤ USIZE_MAX - LOG_CAP_BYTES) :
    (l.append s t).total_bytes = sumBytes (l.append s t).entries ∧
    (l.append s t).total_bytes ≤ LOG_CAP_BYTES := by
  unfold ProcessLog.append
  by_cases h0 : t = []
  · rw [if_pos h0]
    exact ⟨hacc, hcap⟩
  · rw [if_neg h0]
    have hcu : LOG_CAP_BYTES ≤ USIZE_MAX := by decide
    have hsat : satAdd l.total_bytes (utf8Len t) = l.total_bytes + utf8Len t := by
      unfold satAdd
      have : l.total_bytes + utf8Len t ≤ USIZE_MAX := by omega
      exact Nat.min_eq_left this
    have harg : satAdd l.total_bytes (utf8Len t) =
        sumBytes (l.entries ++ [{ stream := s, text := t }]) := by
      rw [hsat, sumBytes_append, sumBytes_cons, sumBytes_nil, hacc]
      rfl
    obtain ⟨h1, _, h3⟩ := evictLoop_sound (l.entries ++ [{ stream := s, text := t }]) _ harg
    exact ⟨h1, h3⟩

theorem runFrom_inv (ops : List (LogStream × List Char)) (l : ProcessLog)
    (hacc : l.total_bytes = sumBytes l.entries)
    (hcap : l.total_bytes ≤ LOG_CAP_BYTES)
    (hops : ∀ op ∈ ops, utf8Len op.2 ≤ USIZE_MAX - LOG_CAP_BYTES) :
    (runFrom l ops).total_bytes = sumBytes (runFrom l ops).entries ∧
    (runFrom l ops).total_bytes ≤ LOG_CAP_BYTES := by
  induction ops generalizing l with
  | nil => exact ⟨hacc, hcap⟩
  | cons op rest ih =>
    have hop := hops op (by simp)
    obtain ⟨h1, h2⟩ := append_inv l op.1 op.2 hacc hcap hop
    have : runFrom l (op :: rest) = runFrom (l.append op.1 op.2) rest := rfl
    rw [this]
    exact ih (l.append op.1 op.2) h1 h2 (fun o ho => hops o (by simp [ho]))

theorem utf8Len_cons (c : Char) (t : List Char) :
    utf8Len (c :: t) = c.utf8Size + utf8Len t := by
  simp [utf8Len]

theorem utf8Len_replicate (n : Nat) (c : Char) :
    utf8Len (List.replicate n c) = n * c.utf8Size := by
  induction n with
  | zero => simp [utf8Len]
  | succ n ih =>
    rw [List.replicate_succ, utf8Len_cons, ih, Nat.succ_mul]
    omega

theorem oversizedText_len : utf8Len oversizedText = LOG_CAP_BYTES + 1 := by
  rw [oversizedText, utf8Len_replicate, show Char.utf8Size 'a' = 1 from rfl, Nat.mul_one]

theorem runFrom_no_evict (ops : List (LogStream × List Char)) (l : ProcessLog)
    (hacc : l.total_bytes = sumBytes l.entries)
    (hcap : sumBytes l.entries + opsSum ops ≤ LOG_CAP_BYTES)
    (hne : ∀ op ∈ ops, op.2 ≠ []) :
    (runFrom l ops).entries =
      l.entries ++ ops.map (fun op => { stream := op.1, text := op.2 }) ∧
    (runFrom l ops).total_bytes = l.total_bytes + opsSum ops := by
  induction ops generalizing l with
  | nil => simp [runFrom, opsSum]
  | cons op rest ih =>
    have hone : op.2 ≠ [] := hne op (by simp)
    have hsum : opsSum (op :: rest) = utf8Len op.2 + opsSum rest := by simp [opsSum]
    rw [hsum] at hcap
    have hle : l.total_bytes + utf8Len op.2 ≤ LOG_CAP_BYTES := by
      rw [hacc]; omega
    have hstep : l.append op.1 op.2 =
        { entries := l.entries ++ [{ stream := op.1, text := op.2 }],
          total_bytes := l.total_bytes + utf8Len op.2 } := by
      unfold ProcessLog.append
      rw [if_neg hone]
      have hsat : satAdd l.total_bytes (utf8Len op.2) = l.total_bytes + utf8Len op.2 := by
        unfold satAdd
        apply Nat.min_eq_left
        have hcm : LOG_CAP_BYTES ≤ USIZE_MAX := by decide
        omega
      rw [hsat, evictLoop_no_evict _ _ hle]
    have hrun : runFrom l (op :: rest) = runFrom (l.append op.1 op.2) rest := rfl
    have hacc' : (l.total_bytes + utf8Len op.2) =
        sumBytes (l.entries ++ [{ stream := op.1, text := op.2 }]) := by
      rw [sumBytes_append, sumBytes_cons, sumBytes_nil, hacc]
      rfl
    have hcap' : sumBytes (l.entries ++ [{ stream := op.1, text := op.2 }]) + opsSum rest ≤
        LOG_CAP_BYTES := by
      rw [sumBytes_append, sumBytes_cons, sumBytes_nil]
      show sumBytes l.entries + (utf8Len op.2 + 0) + opsSum rest ≤ LOG_CAP_BYTES
      omega
    obtain ⟨h1, h2⟩ := ih ⟨l.entries ++ [{ stream := op.1, text := op.2 }], l.total_bytes + utf8Len op.2⟩ hacc' hcap' (fun o ho => hne o (by simp [ho]))
    rw [hrun, hstep]
    constructor
    · rw [h1]
      simp
    · rw [h2, hsum]
      show l.total_bytes + utf8Len op.2 + opsSum rest = l.total_bytes + (utf8Len op.2 + opsSum rest)
      omega

/-- C1: for every sequence of appends to a LogBuffer starting from the empty
buffer in which each individual append's decoded text is at most the 512 KiB
cap, after every append the total byte length of retained entries is at most
the cap, and whenever an append would exceed the cap whole entries are removed
from the oldest end, and only the oldest end, until the total is back under the
cap: the buffer after the last append is what remains after dropping some
number of the oldest previously retained entries, with the newly appended entry
kept whole at the newest end. -/
theorem c1_cap_invariant_oldest_end_eviction
    (ops : List (LogStream × List Char)) (s : LogStream) (t : List Char)
    (hops : ∀ op ∈ ops, utf8Len op.2 ≤ LOG_CAP_BYTES)
    (ht : utf8Len t ≤ LOG_CAP_BYTES) (hne : t ≠ []) :
    sumBytes (runAppends ops).entries ≤ LOG_CAP_BYTES ∧
    sumBytes (runAppends (ops ++ [(s, t)])).entries ≤ LOG_CAP_BYTES ∧
    ∃ k, (runAppends (ops ++ [(s, t)])).entries =
      (runAppends ops).entries.drop k ++ [{ stream := s, text := t }] := by
  have hfold : runAppends (ops ++ [(s, t)]) = (runAppends ops).append s t := by
    unfold runAppends runFrom
    rw [List.foldl_append]
    rfl
  obtain ⟨hacc0, hcap0⟩ := runFrom_inv ops ProcessLog.empty rfl (Nat.zero_le _)
    (fun op h => (hops op h).trans cap_le_usize_sub_cap)
  have hacc : (runAppends ops).total_bytes = sumBytes (runAppends ops).entries := hacc0
  have hcap : (runAppends ops).total_bytes ≤ LOG_CAP_BYTES := hcap0
  obtain ⟨hacc', hcap'⟩ := append_inv (runAppends ops) s t hacc hcap
    (ht.trans cap_le_usize_sub_cap)
  refine ⟨by rw [← hacc]; exact hcap, ?_, ?_⟩
  · rw [hfold, ← hacc']
    exact hcap'
  · rw [hfold]
    unfold ProcessLog.append
    rw [if_neg hne]
    have hsat : satAdd (runAppends ops).total_bytes (utf8Len t) =
        (runAppends ops).total_bytes + utf8Len t := by
      unfold satAdd
      apply Nat.min_eq_left
      have hcm : LOG_CAP_BYTES + LOG_CAP_BYTES ≤ USIZE_MAX := by decide
      omega
    have harg : satAdd (runAppends ops).total_bytes (utf8Len t) =
        sumBytes ((runAppends ops).entries ++ [{ stream := s, text := t }]) := by
      rw [hsat, sumBytes_append, sumBytes_cons, sumBytes_nil, hacc]
      rfl
    exact evictLoop_drop (runAppends ops).entries { stream := s, text := t }
      (satAdd (runAppends ops).total_bytes (utf8Len t)) harg ht

theorem c1_witness :
    sumBytes (runAppends [(LogStream.Stdout, "one".data)]).entries ≤ LOG_CAP_BYTES ∧
    sumBytes (runAppends ([(LogStream.Stdout, "one".data)] ++
      [(LogStream.Stderr, "two".data)])).entries ≤ LOG_CAP_BYTES ∧
    ∃ k, (runAppends ([(LogStream.Stdout, "one".data)] ++
      [(LogStream.Stderr, "two".data)])).entries =
      (runAppends [(LogStream.Stdout, "one".data)]).entries.drop k ++
        [{ stream := LogStream.Stderr, text := "two".data }] :=
  c1_cap_invariant_oldest_end_eviction [(LogStream.Stdout, "one".data)]
    LogStream.Stderr "two".data (by decide) (by decide) (by decide)

/-- C2 counterexample: appending a single decoded text of LOG_CAP_BYTES + 1
bytes to the empty buffer leaves the buffer empty, so the newest entry is not
retained in full after an oversized append; the eviction loop pops it too. -/
theorem c2_counterexample :
    LOG_CAP_BYTES < utf8Len oversizedText ∧
    (ProcessLog.empty.append LogStream.Stdout oversizedText).entries = [] := by
  have hne : oversizedText ≠ [] := by
    rw [oversizedText]
    intro hcon
    have hlen0 := congrArg List.length hcon
    rw [List.length_replicate, List.length_nil] at hlen0
    exact Nat.succ_ne_zero LOG_CAP_BYTES hlen0
  have hbig : LOG_CAP_BYTES < utf8Len oversizedText := by
    rw [oversizedText_len]; omega
  refine ⟨hbig, ?_⟩
  unfold ProcessLog.append
  rw [if_neg hne]
  have harg : satAdd ProcessLog.empty.total_bytes (utf8Len oversizedText) =
      sumBytes (ProcessLog.empty.entries ++
        [{ stream := LogStream.Stdout, text := oversizedText }]) := by
    rw [show ProcessLog.empty.total_bytes = 0 from rfl,
      show ProcessLog.empty.entries = ([] : List LogEntry) from rfl,
      List.nil_append, sumBytes_cons, sumBytes_nil,
      show ({ stream := LogStream.Stdout, text := oversizedText } : LogEntry).text =
        oversizedText from rfl, oversizedText_len]
    unfold satAdd
    have hcm : LOG_CAP_BYTES + 1 ≤ USIZE_MAX := by decide
    omega
  rw [evictLoop_clears ProcessLog.empty.entries
    { stream := LogStream.Stdout, text := oversizedText }
    (satAdd ProcessLog.empty.total_bytes (utf8Len oversizedText)) harg hbig]

/-- C2 amended: eviction removes whole entries from the oldest end, but an
append whose single decoded text exceeds the 512 KiB cap is not kept: the
eviction loop pops every older entry and then the newest entry itself, leaving
the buffer empty with a zero byte total (given accurate byte accounting and no
counter saturation). -/
theorem c2_amended_oversized_append_clears
    (l : ProcessLog) (s : LogStream) (t : List Char)
    (hacc : l.total_bytes = sumBytes l.entries)
    (hsat : l.total_bytes + utf8Len t ≤ USIZE_MAX)
    (hbig : LOG_CAP_BYTES < utf8Len t) :
    (l.append s t).entries = [] ∧ (l.append s t).total_bytes = 0 := by
  have hne : t ≠ [] := by
    intro hcon
    rw [hcon] at hbig
    exact absurd hbig (by decide)
  unfold ProcessLog.append
  rw [if_neg hne]
  have harg : satAdd l.total_bytes (utf8Len t) =
      sumBytes (l.entries ++ [{ stream := s, text := t }]) := by
    rw [sumBytes_append, sumBytes_cons, sumBytes_nil, ← hacc]
    unfold satAdd
    show min (l.total_bytes + utf8Len t) USIZE_MAX = l.total_bytes + (utf8Len t + 0)
    omega
  rw [evictLoop_clears l.entries { stream := s, text := t }
    (satAdd l.total_bytes (utf8Len t)) harg hbig]
  exact ⟨rfl, rfl⟩

theorem c2_amended_witness :
    (ProcessLog.empty.append LogStream.Stderr oversizedText).entries = [] ∧
    (ProcessLog.empty.append LogStream.Stderr oversizedText).total_bytes = 0 :=
  c2_amended_oversized_append_clears ProcessLog.empty LogStream.Stderr oversizedText rfl
    (by rw [show ProcessLog.empty.total_bytes = 0 from rfl, oversizedText_len]; decide)
    (by rw [oversizedText_len]; omega)

/-- C7: after any sequence of N nonempty appends whose total decoded byte
length stays at or under the 512 KiB cap, snapshot returns exactly those N
entries, each with its stream tag and decoded text, in append order. -/
theorem c7_snapshot_exact_entries (ops : List (LogStream × List Char))
    (hne : ∀ op ∈ ops, op.2 ≠ []) (hcap : opsSum ops ≤ LOG_CAP_BYTES) :
    (runAppends ops).snapshot = ops.map (fun op => { stream := op.1, text := op.2 }) ∧
    (runAppends ops).snapshot.length = ops.length := by
  have hcap0 : sumBytes ProcessLog.empty.entries + opsSum ops ≤ LOG_CAP_BYTES := by
    rw [show sumBytes ProcessLog.empty.entries = 0 from rfl]
    omega
  obtain ⟨h1, _⟩ := runFrom_no_evict ops ProcessLog.empty rfl hcap0 hne
  constructor
  · show (runFrom ProcessLog.empty ops).entries = _
    rw [h1, show ProcessLog.empty.entries = ([] : List LogEntry) from rfl, List.nil_append]
  · show (runFrom ProcessLog.empty ops).entries.length = _
    rw [h1, show ProcessLog.empty.entries = ([] : List LogEntry) from rfl, List.nil_append]
    simp

theorem c7_witness :
    (runAppends [(LogStream.Stdout, "hello".data), (LogStream.Stderr, "oops".data)]).snapshot =
      [(LogStream.Stdout, "hello".data), (LogStream.Stderr, "oops".data)].map
        (fun op => { stream := op.1, text := op.2 }) ∧
    (runAppends [(LogStream.Stdout, "hello".data),
      (LogStream.Stderr, "oops".data)]).snapshot.length =
      [(LogStream.Stdout, "hello".data), (LogStream.Stderr, "oops".data)].length :=
  c7_snapshot_exact_entries
    [(LogStream.Stdout, "hello".data), (LogStream.Stderr, "oops".data)]
    (by decide) (by decide)

/-- C10: for every buffer reachable from the empty buffer by appends none of
which can saturate the usize byte counter, the stored total_bytes equals the
sum of the decoded byte lengths of the retained entries, and snapshot returns
exactly the retained entries, leaving the buffer untouched. -/
theorem c10_total_bytes_accounting (ops : List (LogStream × List Char))
    (hops : ∀ op ∈ ops, utf8Len op.2 ≤ USIZE_MAX - LOG_CAP_BYTES) :
    (runAppends ops).total_bytes = sumBytes (runAppends ops).entries ∧
    (runAppends ops).snapshot = (runAppends ops).entries :=
  ⟨(runFrom_inv ops ProcessLog.empty rfl (Nat.zero_le _) hops).1, rfl⟩

theorem c10_witness :
    (runAppends [(LogStream.Stdout, "alpha".data), (LogStream.Stderr, "beta".data)]).total_bytes =
      sumBytes (runAppends [(LogStream.Stdout, "alpha".data),
        (LogStream.Stderr, "beta".data)]).entries ∧
    (runAppends [(LogStream.Stdout, "alpha".data), (LogStream.Stderr, "beta".data)]).snapshot =
      (runAppends [(LogStream.Stdout, "alpha".data), (LogStream.Stderr, "beta".data)]).entries :=
  c10_total_bytes_accounting
    [(LogStream.Stdout, "alpha".data), (LogStream.Stderr, "beta".data)] (by decide)

theorem monitorStep_terminal (s : BackgroundProcessState) (p : PollOutcome)
    (h : s.isTerminal = true) : monitorStep s p = s := by
  cases s with
  | Running => simp [BackgroundProcessState.isTerminal] at h
  | Exited c sg t => rfl
  | Failed m t => rfl

theorem foldl_monitorStep_terminal (polls : List PollOutcome) (s : BackgroundProcessState)
    (h : s.isTerminal = true) : polls.foldl monitorStep s = s := by
  induction polls with
  | nil => rfl
  | cons p ps ih =>
    rw [List.foldl_cons, monitorStep_terminal s p h]
    exact ih

/-- C3: the lifecycle state starts as Running; a monitor step from Running
either stays Running (poll says still running), moves to Exited carrying the
exit code, signal and timestamp (poll reports the child exited), or moves to
Failed carrying the error message and timestamp (the wait poll itself errored);
and once the state observed after some polls is terminal, any further polls
leave it exactly as it is, so a reader that has observed Exited or Failed never
subsequently observes Running or the other terminal variant. -/
theorem c3_lifecycle_single_transition (polls more : List PollOutcome) (p : PollOutcome)
    (h : (monitorRun polls).isTerminal = true) :
    monitorRun [] = BackgroundProcessState.Running ∧
    monitorRun (polls ++ more) = monitorRun polls ∧
    (monitorStep BackgroundProcessState.Running p = BackgroundProcessState.Running ∨
      (∃ c sg now, p = PollOutcome.exited c sg now ∧
        monitorStep BackgroundProcessState.Running p =
          BackgroundProcessState.Exited c sg now) ∨
      (∃ msg now, p = PollOutcome.waitError msg now ∧
        monitorStep BackgroundProcessState.Running p =
          BackgroundProcessState.Failed msg now)) := by
  refine ⟨rfl, ?_, ?_⟩
  · unfold monitorRun
    rw [List.foldl_append]
    exact foldl_monitorStep_terminal more _ h
  · cases p with
    | exited c sg now => exact Or.inr (Or.inl ⟨c, sg, now, rfl, rfl⟩)
    | stillRunning => exact Or.inl rfl
    | waitError msg now => exact Or.inr (Or.inr ⟨msg, now, rfl, rfl⟩)

theorem c3_witness :
    monitorRun [] = BackgroundProcessState.Running ∧
    monitorRun ([PollOutcome.exited (some 0) none ⟨0⟩] ++ [PollOutcome.stillRunning]) =
      monitorRun [PollOutcome.exited (some 0) none ⟨0⟩] ∧
    (monitorStep BackgroundProcessState.Running PollOutcome.stillRunning =
        BackgroundProcessState.Running ∨
      (∃ c sg now, PollOutcome.stillRunning = PollOutcome.exited c sg now ∧
        monitorStep BackgroundProcessState.Running PollOutcome.stillRunning =
          BackgroundProcessState.Exited c sg now) ∨
      (∃ msg now, PollOutcome.stillRunning = PollOutcome.waitError msg now ∧
        monitorStep BackgroundProcessState.Running PollOutcome.stillRunning =
          BackgroundProcessState.Failed msg now)) :=
  c3_lifecycle_single_transition [PollOutcome.exited (some 0) none ⟨0⟩]
    [PollOutcome.stillRunning] PollOutcome.stillRunning (by decide)

/-- C5: kill returns success both when the underlying start_kill request
succeeds and when it fails with the invalid-input kind (nothing to kill: the
child already exited or was never schedulable); every other error kind is
returned to the caller unchanged. -/
theorem c5_kill_invalid_input_is_success (p : ManagedBackgroundProcess)
    (r : Except IOError Unit) :
    (r = .ok () → p.kill r = .ok ()) ∧
    (∀ e, r = .error e → e.kind = IOErrorKind.InvalidInput → p.kill r = .ok ()) ∧
    (∀ e, r = .error e → e.kind ≠ IOErrorKind.InvalidInput → p.kill r = .error e) := by
  refine ⟨?_, ?_, ?_⟩
  · intro h
    rw [h]
    rfl
  · intro e h hk
    rw [h]
    simp [ManagedBackgroundProcess.kill, hk]
  · intro e h hk
    rw [h]
    simp [ManagedBackgroundProcess.kill, hk]

theorem c5_witness :
    ManagedBackgroundProcess.kill
      { id := "bg-1".data, command_for_display := [], cwd := [], started_at := ⟨0⟩,
        sandbox_type := SandboxType.noSandbox, state := BackgroundProcessState.Running,
        log := ProcessLog.empty }
      (Except.error { kind := IOErrorKind.InvalidInput, message := "os error 22".data }) =
      Except.ok () :=
  (c5_kill_invalid_input_is_success
    { id := "bg-1".data, command_for_display := [], cwd := [], started_at := ⟨0⟩,
      sandbox_type := SandboxType.noSandbox, state := BackgroundProcessState.Running,
      log := ProcessLog.empty }
    (Except.error { kind := IOErrorKind.InvalidInput, message := "os error 22".data })).2.1
    { kind := IOErrorKind.InvalidInput, message := "os error 22".data } rfl rfl

/-- C9: the timestamp-to-epoch-milliseconds conversion returns the exact whole
number of milliseconds since the Unix epoch for any instant at or after the
epoch (the epoch converts to 0, epoch plus 1234 ms converts to 1234) and
returns no value at all for any instant before the epoch. -/
theorem c9_time_conversion (time : SystemTime) :
    (0 ≤ time.nanosSinceEpoch →
      system_time_to_unix_millis time = some (time.nanosSinceEpoch.toNat / 1000000)) ∧
    (time.nanosSinceEpoch < 0 → system_time_to_unix_millis time = none) ∧
    system_time_to_unix_millis ⟨0⟩ = some 0 ∧
    system_time_to_unix_millis ⟨1234 * 1000000⟩ = some 1234 := by
  refine ⟨?_, ?_, by decide, by decide⟩
  · intro h
    unfold system_time_to_unix_millis
    rw [if_pos h]
  · intro h
    unfold system_time_to_unix_millis
    rw [if_neg (Int.not_le.mpr h)]

theorem c9_witness :
    system_time_to_unix_millis ⟨1234 * 1000000⟩ =
      some ((1234 * 1000000 : Int).toNat / 1000000) :=
  (c9_time_conversion ⟨1234 * 1000000⟩).1 (by decide)

/-- C4: whenever start fails, because the external spawn errored or because
the spawned child's stdout or stderr pipe was not available to take, start
returns an error, the registry map is exactly as it was before the call, and
no pump or monitor task has been spawned by that call. -/
theorem c4_start_failure_no_registration (m : BackgroundProcessManager) (env : StartEnv)
    (h : (∃ e, env.spawn = .error e) ∨
      (∃ child st, env.spawn = .ok (child, st) ∧
        (child.stdout = none ∨ child.stderr = none))) :
    (∃ err, (m.start env).result = .error err) ∧
    (m.start env).manager.processes = m.processes ∧
    (m.start env).tasksSpawned = 0 := by
  rcases h with ⟨e, he⟩ | ⟨child, st, he, hpipe⟩
  · refine ⟨⟨error_to_function_call e, ?_⟩, ?_, ?_⟩ <;>
      · unfold BackgroundProcessManager.start
        rw [he]
  · obtain ⟨so, se⟩ := child
    cases so with
    | none =>
      refine ⟨⟨.RespondToModel "failed to capture stdout".data, ?_⟩, ?_, ?_⟩ <;>
        · unfold BackgroundProcessManager.start
          rw [he]
    | some u =>
      have hse : se = none := by
        rcases hpipe with h1 | h2
        · exact absurd h1 (by simp)
        · exact h2
      subst hse
      refine ⟨⟨.RespondToModel "failed to capture stderr".data, ?_⟩, ?_, ?_⟩ <;>
        · unfold BackgroundProcessManager.start
          rw [he]

theorem c4_witness :
    (∃ err, (BackgroundProcessManager.new.start
      { spawn := .ok ({ stdout := none, stderr := none }, SandboxType.noSandbox),
        paramsAfter := { command := [], cwd := [] }, now := ⟨0⟩ }).result = .error err) ∧
    (BackgroundProcessManager.new.start
      { spawn := .ok ({ stdout := none, stderr := none }, SandboxType.noSandbox),
        paramsAfter := { command := [], cwd := [] }, now := ⟨0⟩ }).manager.processes =
      BackgroundProcessManager.new.processes ∧
    (BackgroundProcessManager.new.start
      { spawn := .ok ({ stdout := none, stderr := none }, SandboxType.noSandbox),
        paramsAfter := { command := [], cwd := [] }, now := ⟨0⟩ }).tasksSpawned = 0 :=
  c4_start_failure_no_registration BackgroundProcessManager.new
    { spawn := .ok ({ stdout := none, stderr := none }, SandboxType.noSandbox),
      paramsAfter := { command := [], cwd := [] }, now := ⟨0⟩ }
    (Or.inr ⟨{ stdout := none, stderr := none }, SandboxType.noSandbox, rfl, Or.inl rfl⟩)

/-- C8: for every identifier absent from the registry map, logs and kill both
return the unknown-process error built from that identifier instead of
panicking; both operations only read the map (they are functions of the
manager that return a result and no new manager), so neither modifies the
registry or any registered process. -/
theorem c8_unknown_id_not_found (m : BackgroundProcessManager) (process_id : List Char)
    (start_kill : Except IOError Unit)
    (h : mapLookup m.processes process_id = none) :
    m.logs process_id =
      .error (.RespondToModel ("unknown background process: ".data ++ process_id)) ∧
    m.kill process_id start_kill =
      .error (.RespondToModel ("unknown background process: ".data ++ process_id)) := by
  constructor
  · unfold BackgroundProcessManager.logs
    rw [h]
  · unfold BackgroundProcessManager.kill
    rw [h]

theorem c8_witness :
    BackgroundProcessManager.new.logs "bg-99".data =
      .error (.RespondToModel ("unknown background process: ".data ++ "bg-99".data)) ∧
    BackgroundProcessManager.new.kill "bg-99".data (Except.ok ()) =
      .error (.RespondToModel ("unknown background process: ".data ++ "bg-99".data)) :=
  c8_unknown_id_not_found BackgroundProcessManager.new "bg-99".data (Except.ok ()) rfl

theorem digitChar_inj {d1 d2 : Nat} (h1 : d1 < 10) (h2 : d2 < 10)
    (h : digitChar d1 = digitChar d2) : d1 = d2 := by
  interval_cases d1 <;> interval_cases d2 <;> revert h <;> decide

theorem map_digitChar_inj : ∀ (l1 l2 : List Nat), (∀ d ∈ l1, d < 10) → (∀ d ∈ l2, d < 10) →
    l1.map digitChar = l2.map digitChar → l1 = l2 := by
  intro l1
  induction l1 with
  | nil =>
    intro l2 _ _ h
    cases l2 with
    | nil => rfl
    | cons b t => simp at h
  | cons a t ih =>
    intro l2 h1 h2 h
    cases l2 with
    | nil => simp at h
    | cons b t2 =>
      simp only [List.map_cons, List.cons.injEq] at h
      have hab := digitChar_inj (h1 a (by simp)) (h2 b (by simp)) h.1
      have ht := ih t2 (fun d hd => h1 d (by simp [hd])) (fun d hd => h2 d (by simp [hd])) h.2
      rw [hab, ht]

theorem natToDecimal_zero_ne (b : Nat) (hb : b ≠ 0) :
    ['0'] ≠ ((Nat.digits 10 b).map digitChar).reverse := by
  intro h
  have hlen := congrArg List.length h
  simp only [List.length_reverse, List.length_map, List.length_singleton] at hlen
  cases hd : Nat.digits 10 b with
  | nil =>
    rw [hd] at hlen
    simp at hlen
  | cons d tl =>
    cases tl with
    | cons d2 tl2 =>
      rw [hd] at hlen
      simp at hlen
    | nil =>
      rw [hd] at h
      simp only [List.map_cons, List.map_nil, List.reverse_cons, List.reverse_nil,
        List.nil_append] at h
      have h0 : ('0' : Char) = digitChar d := by
        have := List.cons.inj h
        exact this.1
      have hdlt : d < 10 := Nat.digits_lt_base (by norm_num) (by rw [hd]; simp)
      have hd0 : (0 : Nat) = d := by
        apply digitChar_inj (by norm_num) hdlt
        rw [show digitChar 0 = '0' from rfl]
        exact h0
      have hb0 : b = 0 := by
        have hof := Nat.ofDigits_digits 10 b
        rw [hd, ← hd0] at hof
        simpa [Nat.ofDigits] using hof.symm
      exact hb hb0

theorem natToDecimal_inj (a b : Nat) (h : natToDecimal a = natToDecimal b) : a = b := by
  unfold natToDecimal at h
  by_cases ha : a = 0 <;> by_cases hb : b = 0
  · rw [ha, hb]
  · rw [if_pos ha, if_neg hb] at h
    exact absurd h (natToDecimal_zero_ne b hb)
  · rw [if_neg ha, if_pos hb] at h
    exact absurd h.symm (natToDecimal_zero_ne a ha)
  · rw [if_neg ha, if_neg hb] at h
    have hmap : (Nat.digits 10 a).map digitChar = (Nat.digits 10 b).map digitChar := by
      have hrev := congrArg List.reverse h
      simpa using hrev
    have hdig : Nat.digits 10 a = Nat.digits 10 b :=
      map_digitChar_inj _ _ (fun d hd => Nat.digits_lt_base (by norm_num) hd)
        (fun d hd => Nat.digits_lt_base (by norm_num) hd) hmap
    have hof := congrArg (Nat.ofDigits 10) hdig
    rw [Nat.ofDigits_digits, Nat.ofDigits_digits] at hof
    exact_mod_cast hof

theorem processIdString_inj (a b : Nat) (h : processIdString a = processIdString b) : a = b :=
  natToDecimal_inj a b (List.append_right_injective "bg-".data h)

theorem start_effect_basics (m : BackgroundProcessManager) (env : StartEnv) :
    (m.start env).manager.next_id = (m.next_id + 1) % UINT64_CARD ∧
    (m.start env).allocatedIdNum = (m.next_id + 1) % UINT64_CARD ∧
    (m.start env).allocatedId = processIdString ((m.next_id + 1) % UINT64_CARD) ∧
    (∀ resp, (m.start env).result = .ok resp →
      resp.process_id = processIdString ((m.next_id + 1) % UINT64_CARD)) := by
  obtain ⟨spawn, params, now⟩ := env
  unfold BackgroundProcessManager.start
  rcases spawn with e | ⟨child, st⟩
  · exact ⟨rfl, rfl, rfl, fun resp hre => Except.noConfusion hre⟩
  · obtain ⟨so, se⟩ := child
    cases so with
    | none => exact ⟨rfl, rfl, rfl, fun resp hre => Except.noConfusion hre⟩
    | some u =>
      cases se with
      | none => exact ⟨rfl, rfl, rfl, fun resp hre => Except.noConfusion hre⟩
      | some v =>
        refine ⟨rfl, rfl, rfl, ?_⟩
        intro resp hre
        injection hre with h2
        rw [← h2]

theorem runStarts_length (m : BackgroundProcessManager) (envs : List StartEnv) :
    (runStarts m envs).length = envs.length := by
  induction envs generalizing m with
  | nil => rfl
  | cons env rest ih =>
    show ((m.start env) :: runStarts (m.start env).manager rest).length = rest.length + 1
    rw [List.length_cons, ih]

theorem runStarts_alloc (envs : List StartEnv) (m : BackgroundProcessManager) (i : Nat)
    (hi : i < envs.length) (hcard : m.next_id + envs.length < UINT64_CARD) :
    ((runStarts m envs).map StartEffect.allocatedIdNum).getD i 0 = m.next_id + i + 1 ∧
    ((runStarts m envs).map StartEffect.allocatedId).getD i [] =
      processIdString (m.next_id + i + 1) ∧
    (∀ resp, ((runStarts m envs).map StartEffect.result).getD i
        (.error (.RespondToModel [])) = .ok resp →
      resp.process_id = processIdString (m.next_id + i + 1)) := by
  induction envs generalizing m i with
  | nil => simp at hi
  | cons env rest ih =>
    obtain ⟨hn, ha, hs, hok⟩ := start_effect_basics m env
    have hmod : (m.next_id + 1) % UINT64_CARD = m.next_id + 1 := by
      apply Nat.mod_eq_of_lt
      rw [List.length_cons] at hcard
      omega
    have hstep : runStarts m (env :: rest) =
        (m.start env) :: runStarts (m.start env).manager rest := rfl
    cases i with
    | zero =>
      refine ⟨?_, ?_, ?_⟩
      · rw [hstep, List.map_cons, List.getD_cons_zero, ha, hmod, Nat.add_zero]
      · rw [hstep, List.map_cons, List.getD_cons_zero, hs, hmod, Nat.add_zero]
      · intro resp hre
        rw [hstep, List.map_cons, List.getD_cons_zero] at hre
        rw [Nat.add_zero, ← hmod]
        exact hok resp hre
    | succ k =>
      have hk : k < rest.length := by
        rw [List.length_cons] at hi
        omega
      have hcard' : (m.start env).manager.next_id + rest.length < UINT64_CARD := by
        rw [hn, hmod, List.length_cons] at *
        omega
      obtain ⟨g1, g2, g3⟩ := ih (m.start env).manager k hk hcard'
      have hnum : (m.start env).manager.next_id + k + 1 = m.next_id + (k + 1) + 1 := by
        rw [hn, hmod]
        omega
      refine ⟨?_, ?_, ?_⟩
      · rw [hstep, List.map_cons, List.getD_cons_succ, g1, hnum]
      · rw [hstep, List.map_cons, List.getD_cons_succ, g2, hnum]
      · intro resp hre
        rw [hstep, List.map_cons, List.getD_cons_succ] at hre
        rw [← hnum]
        exact g3 resp hre

/-- C6: on a fresh registry the i-th start attempt (counting from zero)
allocates counter value i + 1, so the counter starts at 1 and increases by one
per attempt whether or not the attempt succeeds; a value consumed by a failed
start is never reused by a later start; the allocated identifier is the literal
prefix bg- followed by the decimal counter value; identifiers of distinct
attempts are pairwise distinct with strictly increasing counter values; and a
successful start returns exactly its allocated identifier. -/
theorem c6_identifier_allocation (envs : List StartEnv) (i j : Nat)
    (hi : i < envs.length) (hj : j < envs.length) (hij : i < j)
    (hcard : envs.length < UINT64_CARD) :
    ((runStarts BackgroundProcessManager.new envs).map StartEffect.allocatedIdNum).getD i 0 =
      i + 1 ∧
    ((runStarts BackgroundProcessManager.new envs).map StartEffect.allocatedId).getD i [] =
      processIdString (i + 1) ∧
    ((runStarts BackgroundProcessManager.new envs).map StartEffect.allocatedIdNum).getD i 0 <
      ((runStarts BackgroundProcessManager.new envs).map StartEffect.allocatedIdNum).getD j 0 ∧
    ((runStarts BackgroundProcessManager.new envs).map StartEffect.allocatedId).getD i [] ≠
      ((runStarts BackgroundProcessManager.new envs).map StartEffect.allocatedId).getD j [] ∧
    (∀ resp, ((runStarts BackgroundProcessManager.new envs).map StartEffect.result).getD i
        (.error (.RespondToModel [])) = .ok resp →
      resp.process_id = processIdString (i + 1)) := by
  have h0 : BackgroundProcessManager.new.next_id = 0 := rfl
  have hc : BackgroundProcessManager.new.next_id + envs.length < UINT64_CARD := by
    rw [h0]
    omega
  obtain ⟨a1, a2, a3⟩ := runStarts_alloc envs BackgroundProcessManager.new i hi hc
  obtain ⟨b1, b2, _⟩ := runStarts_alloc envs BackgroundProcessManager.new j hj hc
  rw [h0, Nat.zero_add] at a1 a2 b1 b2
  refine ⟨a1, a2, ?_, ?_, ?_⟩
  · rw [a1, b1]
    omega
  · rw [a2, b2]
    intro heq
    have hij2 := processIdString_inj _ _ heq
    omega
  · intro resp hre
    have hpi := a3 resp hre
    rw [h0, Nat.zero_add] at hpi
    exact hpi

theorem c6_witness :
    ((runStarts BackgroundProcessManager.new sampleEnvs).map
      StartEffect.allocatedIdNum).getD 0 0 = 0 + 1 ∧
    ((runStarts BackgroundProcessManager.new sampleEnvs).map
      StartEffect.allocatedId).getD 0 [] = processIdString (0 + 1) ∧
    ((runStarts BackgroundProcessManager.new sampleEnvs).map
      StartEffect.allocatedIdNum).getD 0 0 <
      ((runStarts BackgroundProcessManager.new sampleEnvs).map
        StartEffect.allocatedIdNum).getD 1 0 ∧
    ((runStarts BackgroundProcessManager.new sampleEnvs).map
      StartEffect.allocatedId).getD 0 [] ≠
      ((runStarts BackgroundProcessManager.new sampleEnvs).map
        StartEffect.allocatedId).getD 1 [] ∧
    (∀ resp, ((runStarts BackgroundProcessManager.new sampleEnvs).map
        StartEffect.result).getD 0 (.error (.RespondToModel [])) = .ok resp →
      resp.process_id = processIdString (0 + 1)) :=
  c6_identifier_allocation sampleEnvs 0 1 (by decide) (by decide) (by decide) (by decide)
